import Mathlib

/-!
Verification development for PurgeBot's cleanup orchestration and
reconciliation core (`src/bot.js` and the `control.js` API routes).

The JavaScript source is shallowly embedded: YAML/JS values that retention
resolution inspects become the inductive `JsVal`; the configuration object
becomes `Config` over insertion-ordered association lists (mirroring JS
object key order); the orchestration loops become structurally recursive
functions over explicit inputs.  External I/O (the Discord message store,
the file system) is passed in as data: a channel's paged fetch is the list
of messages it yields (or the error it throws), and per-message delete
outcomes are a boolean-valued function.
-/

namespace PurgeBot

/-- JavaScript values that the retention logic can encounter in a parsed
YAML config: integer-valued numbers, non-integer numbers, strings,
booleans, and null.  `validateRetention` in `bot.js` distinguishes exactly
these via `typeof value !== 'number' || !Number.isInteger(value)`. -/
inductive JsVal where
  | vint (n : Int)
  | vfrac
  | vstr (s : String)
  | vbool (b : Bool)
  | vnull
  deriving DecidableEq, Repr

/-- A retention value is valid when it is an integer number that is at
least `-1` (the check inside `validateRetention`). -/
def JsVal.isValidRetention : JsVal → Bool
  | .vint n => decide (-1 ≤ n)
  | _ => false

/-- An entry of a category's `_channels` list in `config.yaml`: either a
bare channel name (a YAML string) or a single-key mapping
`{name: override}` carrying an inline retention override. -/
inductive ChannelEntry where
  | plain (name : String)
  | chanOverride (name : String) (value : JsVal)
  deriving DecidableEq, Repr

/-- The channel name an entry denotes (`Object.keys(entry)[0]` for
mapping entries). -/
def ChannelEntry.name : ChannelEntry → String
  | .plain n => n
  | .chanOverride n _ => n

/-- A category of the configuration.  `channels` is `none` when
`_channels` is missing or not an array; `catDefault` is `none` when
`default` is `undefined` (absent); `overridesMap` models the deprecated
`overrides:` section (`none` when absent/falsy). -/
structure Category where
  enabled : Bool
  catDefault : Option JsVal
  channels : Option (List ChannelEntry)
  overridesMap : Option (List (String × JsVal))
  deriving DecidableEq, Repr

/-- The slice of the loaded configuration that the claims touch.
`categories` is an insertion-ordered association list with (in practice)
unique keys, mirroring a JS object.  `globalDefault` is the value after
`loadConfig` normalisation, hence an integer. -/
structure Config where
  globalDefault : Int
  categories : List (String × Category)
  deriving DecidableEq, Repr

/-- First-match lookup in an insertion-ordered association list, the
embedding of `obj[key]` access on a JS object. -/
def lookupAssoc {β : Type} : List (String × β) → String → Option β
  | [], _ => none
  | p :: rest, k => if p.1 = k then some p.2 else lookupAssoc rest k

/-- `getChannelOverride(cat, channelName)` from `bot.js`: scan the
`_channels` list and return the value of the first mapping entry whose
key is `channelName`; `undefined` (here `none`) when `_channels` is not
an array or no entry matches. -/
def getChannelOverride (cat : Category) (channelName : String) : Option JsVal :=
  match cat.channels with
  | none => none
  | some entries =>
      entries.findSome? fun e =>
        match e with
        | .plain _ => none
        | .chanOverride n v => if n = channelName then some v else none

/-- `validateRetention(value, context)` from `bot.js`.  Returns the value
to use together with a flag recording whether the invalid-value warning
was logged: a non-number, non-integer number, or integer below `-1`
falls back to `globalDefault` with a warning; a valid value is returned
unchanged with no warning. -/
def validateRetention (value : JsVal) (globalDefault : Int) : Int × Bool :=
  match value with
  | .vint n => if n < -1 then (globalDefault, true) else (n, false)
  | _ => (globalDefault, true)

/-- `getRetention(categoryName, channelName)` from `bot.js`: `null`
(`none`) when the category is absent; otherwise the validated inline
override if present, else the validated category default if present,
else the global default. -/
def getRetention (cfg : Config) (categoryName channelName : String) : Option Int :=
  match lookupAssoc cfg.categories categoryName with
  | none => none
  | some cat =>
      match getChannelOverride cat channelName with
      | some ov => some (validateRetention ov cfg.globalDefault).1
      | none =>
          match cat.catDefault with
          | some d => some (validateRetention d cfg.globalDefault).1
          | none => some cfg.globalDefault

/-- `getRetentionSource(categoryName, channelName)` from `bot.js`. -/
def getRetentionSource (cfg : Config) (categoryName channelName : String) : String :=
  match lookupAssoc cfg.categories categoryName with
  | none => "global"
  | some cat =>
      if (getChannelOverride cat channelName).isSome then "override"
      else if cat.catDefault.isSome then "category"
      else "global"

/-- The `globalDefault` normalisation in `loadConfig`:
`parsed.globalDefault = parsed.globalDefault ?? 7` followed by the
integer-and-at-least-`-1` check that replaces invalid values by `7`.
An absent (`none`) or `null` raw value becomes `7` via `??`; a present
value that is not an integer number at least `-1` also becomes `7`. -/
def normalizeGlobalDefault : Option JsVal → Int
  | some (.vint n) => if n < -1 then 7 else n
  | _ => 7

/-- A fetched Discord message, reduced to the fields the cleanup loop
inspects: an id, the `createdAt` timestamp (milliseconds), and the
pinned flag. -/
structure Msg where
  id : Nat
  createdAt : Int
  pinned : Bool
  deriving DecidableEq, Repr

/-- The message-classification loop of `runCleanup` (the `for` over each
fetched page): skip a pinned message when `skipPinned` is set; a message
older than the retention `cutoff` goes to `bulkDeletable` when strictly
younger than the 14-day `bulkLimit` cutoff (`msg.createdAt >
bulkDeleteLimit`), otherwise to `oldDeletable` — but only when the
category's `deleteOld` flag is set; otherwise it is dropped.  Returns
`(bulkDeletable, oldDeletable)` in fetch order. -/
def classifyMessages (skipPinned deleteOld : Bool) (cutoff bulkLimit : Int) :
    List Msg → List Msg × List Msg
  | [] => ([], [])
  | msg :: rest =>
      let p := classifyMessages skipPinned deleteOld cutoff bulkLimit rest
      if msg.pinned && skipPinned then p
      else if msg.createdAt < cutoff then
        if bulkLimit < msg.createdAt then (msg :: p.1, p.2)
        else if deleteOld then (p.1, msg :: p.2)
        else p
      else p

/-- `oldDeletable.slice(0, maxOld)` — the individually-eligible messages
actually attempted in a live run, capped at
`config.discord.maxOldDeletesPerChannel`. -/
def oldToDelete (old : List Msg) (maxOld : Nat) : List Msg :=
  old.take maxOld

/-- The number of individual deletes that succeed in a live run: each
message of `oldToDelete` is attempted once, a throwing `msg.delete()` is
caught, logged as a warning and skipped, so only successful attempts
(`delOk`) increment `deleted`. -/
def individualDeleted (old : List Msg) (maxOld : Nat) (delOk : Msg → Bool) : Nat :=
  ((oldToDelete old maxOld).filter delOk).length

/-- The `"N old messages remain (capped at maxOld/run)"` warning: emitted
with count `oldDeletable.length - maxOld` exactly when more
individually-eligible messages exist than the cap. -/
def oldRemaining (old : List Msg) (maxOld : Nat) : Option Nat :=
  if maxOld < old.length then some (old.length - maxOld) else none

/-- Dry-run reported count for one channel: `bulkDeletable.length +
oldDeletable.slice(0, maxOld).length`, the same cap applied as in live
mode. -/
def dryRunPurged (bulk old : List Msg) (maxOld : Nat) : Nat :=
  bulk.length + (oldToDelete old maxOld).length

/-- Live-run deleted count for one channel.  The bulk phase deletes
`bulkDeletable` in batches of at most 100 and counts the batch result
sizes, which total `bulkDeletable.length` when no message ages past the
14-day boundary between fetch and delete (the embedding assumes no such
mid-run aging); the individual phase contributes
`individualDeleted`. -/
def liveDeleted (bulk old : List Msg) (maxOld : Nat) (delOk : Msg → Bool) : Nat :=
  bulk.length + individualDeleted old maxOld delOk

/-- The per-channel entry pushed onto `channelResults` (the fields the
claims inspect; `retention`, `retentionSource` and `skipped` are
omitted). -/
structure ChannelResult where
  name : String
  purged : Nat
  error : Option String
  deriving DecidableEq, Repr

/-- The environment of one channel iteration: the channel name, the
outcome of the code inside the per-channel `try` block up to the delete
phases — `.error e` when the paged fetch (or a bulk-delete call, both
sit inside the same `try`) throws `e`, `.ok msgs` with the fetched
messages otherwise — and the per-message success of individual
deletes. -/
structure ChanInput where
  name : String
  fetchOutcome : Except String (List Msg)
  delOk : Msg → Bool

/-- One iteration of the per-channel loop in `runCleanup` (filters,
retention `-1` skip and cooperative cancellation not exercised): on an
error thrown inside the `try` block the `catch` records the channel with
`purged: 0` and the error message; otherwise the fetched messages are
classified and the channel records the dry-run capped count or the live
deleted count. -/
def processChannel (skipPinned deleteOld : Bool) (cutoff bulkLimit : Int)
    (maxOld : Nat) (effectiveDryRun : Bool) (ci : ChanInput) : ChannelResult :=
  match ci.fetchOutcome with
  | .error e => { name := ci.name, purged := 0, error := some e }
  | .ok msgs =>
      let p := classifyMessages skipPinned deleteOld cutoff bulkLimit msgs
      if effectiveDryRun then
        { name := ci.name, purged := dryRunPurged p.1 p.2 maxOld, error := none }
      else
        { name := ci.name, purged := liveDeleted p.1 p.2 maxOld ci.delOk, error := none }

/-- The channel loop of `runCleanup`: each channel appends its
`ChannelResult` and a failing channel additionally increments
`totalErrors`; the loop never aborts early on a channel error.  Returns
`(channelResults, totalErrors)`. -/
def runChannels (skipPinned deleteOld : Bool) (cutoff bulkLimit : Int)
    (maxOld : Nat) (effectiveDryRun : Bool) (chans : List ChanInput) :
    List ChannelResult × Nat :=
  chans.foldl
    (fun acc ci =>
      let r := processChannel skipPinned deleteOld cutoff bulkLimit maxOld effectiveDryRun ci
      (acc.1 ++ [r], acc.2 + if r.error.isSome then 1 else 0))
    ([], 0)

/-- The run summary fields that the guild-unreachable claim inspects
(timestamp, duration, trigger and per-category breakdown omitted). -/
structure RunStats where
  totalProcessed : Nat
  totalPurged : Nat
  totalErrors : Nat
  dryRun : Bool
  deriving DecidableEq, Repr

/-- The observable outcome of one `runCleanup` invocation: the payload
emitted on the `cleanup-complete` event, and the argument passed to
`persistStats` — `none` when `persistStats` is never called. -/
structure RunOutcome where
  emitted : RunStats
  persisted : Option RunStats
  deriving DecidableEq, Repr

/-- The top of `runCleanup` around the channel loop.  When the guild is
not found the code logs an error, emits a zero-progress
`cleanup-complete` payload (`totalProcessed: 0, totalPurged: 0,
totalErrors: 1`) and returns before any channel is processed — without
calling `persistStats`.  Otherwise the channel loop runs and the
resulting stats are both emitted and passed to `persistStats`. -/
def runCleanupModel (guildFound : Bool) (skipPinned deleteOld : Bool)
    (cutoff bulkLimit : Int) (maxOld : Nat) (effectiveDryRun : Bool)
    (chans : List ChanInput) : RunOutcome :=
  if !guildFound then
    { emitted := { totalProcessed := 0, totalPurged := 0, totalErrors := 1,
                   dryRun := effectiveDryRun },
      persisted := none }
  else
    let r := runChannels skipPinned deleteOld cutoff bulkLimit maxOld effectiveDryRun chans
    let stats : RunStats :=
      { totalProcessed := r.1.length,
        totalPurged := (r.1.map ChannelResult.purged).foldl (· + ·) 0,
        totalErrors := r.2,
        dryRun := effectiveDryRun }
    { emitted := stats, persisted := some stats }

/-- Where a cleanup/sync request comes from: the cron scheduler, the CLI
flags (`--now`, `--sync`), or the dashboard API routes. -/
inductive Trigger where
  | schedule
  | cli
  | api
  deriving DecidableEq, Repr

/-- The events of the single-flight guard model: start of a cleanup or a
full sync from some trigger, and completion of an in-flight operation
(the `finally` blocks that clear the flags). -/
inductive Request where
  | startCleanup (t : Trigger)
  | startSync (t : Trigger)
  | finishCleanup
  | finishSync
  deriving DecidableEq, Repr

/-- The two mutual-exclusion flags of the process: `cleanupRunning` in
`bot.js` and `syncRunning` in the `control.js` route module.  They are
distinct variables, not one shared flag. -/
structure ProcState where
  cleanupRunning : Bool
  syncRunning : Bool
  deriving DecidableEq, Repr

/-- How a start request is answered: accepted, or rejected with the
"already running" condition (HTTP 409 from the routes, the
`Cleanup already running, skipping` warning inside `runCleanup`). -/
inductive Resp where
  | started
  | alreadyRunning
  | finished
  deriving DecidableEq, Repr

/-- One step of the guard logic, straight from the source:
an API cleanup/dry-run/sync request is rejected with 409 when
`bot.isCleanupRunning() || syncRunning`; a schedule- or CLI-triggered
`runCleanup` checks only `cleanupRunning`; a CLI-triggered `syncConfig`
has no guard and sets no flag (`syncRunning` lives in the route module
and is set only by the API sync route).  A rejected request leaves the
state unchanged — it is never queued. -/
def applyReq (s : ProcState) (r : Request) : ProcState × Resp :=
  match r with
  | .startCleanup t =>
      match t with
      | .api =>
          if s.cleanupRunning || s.syncRunning then (s, .alreadyRunning)
          else ({ s with cleanupRunning := true }, .started)
      | _ =>
          if s.cleanupRunning then (s, .alreadyRunning)
          else ({ s with cleanupRunning := true }, .started)
  | .startSync t =>
      match t with
      | .api =>
          if s.cleanupRunning || s.syncRunning then (s, .alreadyRunning)
          else ({ s with syncRunning := true }, .started)
      | _ => (s, .started)
  | .finishCleanup => ({ s with cleanupRunning := false }, .finished)
  | .finishSync => ({ s with syncRunning := false }, .finished)

/-- The initial state: nothing in flight. -/
def ProcState.init : ProcState := ⟨false, false⟩

/-- Run a sequence of requests from the initial state. -/
def runTrace (rs : List Request) : ProcState :=
  rs.foldl (fun s r => (applyReq s r).1) ProcState.init

/-- Some cleanup-or-sync operation is currently in flight. -/
def inFlight (s : ProcState) : Bool :=
  s.cleanupRunning || s.syncRunning

/-- Insertion of a string into a sorted list, the building block of the
embedding of `[...channels].sort()`. -/
def insertSorted (x : String) : List String → List String
  | [] => [x]
  | y :: rest => if x ≤ y then x :: y :: rest else y :: insertSorted x rest

/-- The `[...channels].sort()` call of `syncConfig`: a deterministic
lexicographic sort of the discovered channel names (insertion sort; the
claims need determinism, not the comparison details). -/
def sortChannels (l : List String) : List String :=
  l.foldr insertSorted []

/-- JS `Map.prototype.set` on an insertion-ordered association list:
replace the value of the first (in practice only) entry with the key,
keeping its position, or append a new entry at the end. -/
def ovSet : List (String × JsVal) → String → JsVal → List (String × JsVal)
  | [], k, v => [(k, v)]
  | p :: rest, k, v =>
      if p.1 = k then (k, v) :: rest
      else p :: ovSet rest k v

/-- JS `Map.prototype.get`: the value of the first entry with the
key. -/
def ovLookup : List (String × JsVal) → String → Option JsVal
  | [], _ => none
  | p :: rest, k => if p.1 = k then some p.2 else ovLookup rest k

/-- The `existingOverrides` collection loop of `syncConfig`: walk the
`_channels` entries and `set` each inline override into the map. -/
def collectOverridesFrom (m : List (String × JsVal)) :
    List ChannelEntry → List (String × JsVal)
  | [] => m
  | .plain _ :: rest => collectOverridesFrom m rest
  | .chanOverride n v :: rest => collectOverridesFrom (ovSet m n v) rest

/-- `existingOverrides` built from a category's `_channels` list
(missing/non-array treated as empty, as in the source's
`Array.isArray` guard). -/
def collectInlineOverrides (entries : List ChannelEntry) : List (String × JsVal) :=
  collectOverridesFrom [] entries

/-- Migration of the deprecated `overrides:` section: every entry whose
key does not start with `_` is `set` into the override map. -/
def migrateOverrides (ov : List (String × JsVal)) :
    List (String × JsVal) → List (String × JsVal)
  | [] => ov
  | p :: rest =>
      if p.1.startsWith "_" then migrateOverrides ov rest
      else migrateOverrides (ovSet ov p.1 p.2) rest

/-- The `newList` rebuild of `syncConfig`: the sorted Discord channel
names, each carrying its preserved inline override when the override
map has one. -/
def buildChannelList (ov : List (String × JsVal)) (sorted : List String) :
    List ChannelEntry :=
  sorted.map fun name =>
    match ovLookup ov name with
    | some v => .chanOverride name v
    | none => .plain name

/-- The number of overrides whose channel is no longer on Discord: each
one logs a removal warning and counts as a change. -/
def removedOverridesCount (ov : List (String × JsVal)) (sorted : List String) : Nat :=
  (ov.filter fun p => !decide (p.1 ∈ sorted)).length

/-- In-place update of the category map at a key
(`config.categories[catName] = ...` on an existing key): the entry
keeps its position. -/
def updateCat (cats : List (String × Category)) (name : String) (c : Category) :
    List (String × Category) :=
  cats.map fun p => if p.1 = name then (name, c) else p

/-- The existing-category branch of `syncConfig`'s loop: collect the
inline overrides, migrate and delete the deprecated `overrides:`
section (one change when present), count a change per override whose
channel is gone from Discord, and reassign `_channels` to the rebuilt
`newList` (one change) only when it differs from the current list. -/
def syncExistingCat (cat : Category) (sorted : List String) (changes : Nat) :
    Category × Nat :=
  let ov0 := collectInlineOverrides (cat.channels.getD [])
  let migrated :=
    match cat.overridesMap with
    | some m => (migrateOverrides ov0 m, { cat with overridesMap := none }, changes + 1)
    | none => (ov0, cat, changes)
  let ov := migrated.1
  let cat1 := migrated.2.1
  let changes1 := migrated.2.2
  let newList := buildChannelList ov sorted
  let changes2 := changes1 + removedOverridesCount ov sorted
  if cat1.channels.getD [] = newList then (cat1, changes2)
  else ({ cat1 with channels := some newList }, changes2 + 1)

/-- Processing of one discovered category in `syncConfig`.  A category
absent from configuration is appended, disabled, with the global
default and the sorted plain channel list (one change); an existing one
goes through `syncExistingCat` and is updated in place. -/
def syncCategory (globalDefault : Int) (cats : List (String × Category))
    (changes : Nat) (catName : String) (channels : List String) :
    List (String × Category) × Nat :=
  let sorted := sortChannels channels
  match lookupAssoc cats catName with
  | none =>
      (cats ++ [(catName,
          { enabled := false, catDefault := some (.vint globalDefault),
            channels := some (sorted.map ChannelEntry.plain), overridesMap := none })],
       changes + 1)
  | some cat =>
      let r := syncExistingCat cat sorted changes
      (updateCat cats catName r.1, r.2)

/-- The loop of `syncConfig` over the discovered
`categoryName → channelNames` map. -/
def syncCategories (globalDefault : Int) :
    List (String × List String) → List (String × Category) × Nat →
      List (String × Category) × Nat
  | [], acc => acc
  | p :: rest, acc =>
      syncCategories globalDefault rest
        (syncCategory globalDefault acc.1 acc.2 p.1 p.2)

/-- Result of a full sync: the mutated configuration, the change
counter, and whether the configuration file was written
(`if (changes > 0)`). -/
structure SyncOutcome where
  config : Config
  changes : Nat
  wrote : Bool
  deriving DecidableEq, Repr

/-- `syncConfig` from `bot.js` over a given platform-side category map:
process every discovered category, then remove configuration categories
no longer on Discord (one change each), and write the configuration
file only when at least one change was made. -/
def syncConfigModel (platform : List (String × List String)) (cfg : Config) :
    SyncOutcome :=
  let r := syncCategories cfg.globalDefault platform (cfg.categories, 0)
  let platformNames := platform.map Prod.fst
  let kept := r.1.filter fun p => decide (p.1 ∈ platformNames)
  let removed := (r.1.filter fun p => !decide (p.1 ∈ platformNames)).length
  let changes := r.2 + removed
  { config := { globalDefault := cfg.globalDefault, categories := kept },
    changes := changes,
    wrote := decide (0 < changes) }

/-- A category value is in sync with a discovered channel list when its
deprecated `overrides:` section is gone, its `_channels` list is
exactly the rebuilt `newList` for its own inline overrides, and no
inline override points at a channel absent from Discord — the state
`syncCategory` leaves every category in. -/
def SyncedCat (channels : List String) (cat : Category) : Prop :=
  cat.overridesMap = none ∧
  cat.channels.getD []
    = buildChannelList (collectInlineOverrides (cat.channels.getD []))
        (sortChannels channels) ∧
  removedOverridesCount (collectInlineOverrides (cat.channels.getD []))
    (sortChannels channels) = 0

/-- Example category used by concrete witnesses: default `14`, channels
`grab` (plain) and `archive: -1` (inline override), the shape of the
spec's resolution scenarios. -/
def radarrCat : Category :=
  { enabled := true, catDefault := some (.vint 14),
    channels := some [.plain "grab", .chanOverride "archive" (.vint (-1))],
    overridesMap := none }

/-- Example configuration used by concrete witnesses. -/
def radarrCfg : Config :=
  { globalDefault := 7, categories := [("Radarr", radarrCat)] }

/-- Messages of the spec's scenario: 120 eligible messages, 90 aged
under 14 days (bulk-eligible at cutoff `100`, bulk limit `50`) and 30
aged past it. -/
def scenarioMsgs : List Msg :=
  List.replicate 90 ⟨0, 60, false⟩ ++ List.replicate 30 ⟨1, 10, false⟩

/-! Theorems about retention resolution. -/

/-- C2: for every configuration whose category map contains the named
category, retention resolution returns the inline per-channel override
when one is present in the category's channel list, otherwise the
category-level default when present, otherwise the global default, and
the reported source tag is `"override"`, `"category"`, or `"global"`
respectively, regardless of which tiers are present (override and
category default taken as valid retention values; invalid values are the
subject of C3). -/
theorem getRetention_precedence (cfg : Config) (catName chanName : String)
    (cat : Category) (hcat : lookupAssoc cfg.categories catName = some cat) :
    (∀ n : Int, getChannelOverride cat chanName = some (.vint n) → -1 ≤ n →
        getRetention cfg catName chanName = some n ∧
        getRetentionSource cfg catName chanName = "override") ∧
    (getChannelOverride cat chanName = none →
      ∀ n : Int, cat.catDefault = some (.vint n) → -1 ≤ n →
        getRetention cfg catName chanName = some n ∧
        getRetentionSource cfg catName chanName = "category") ∧
    (getChannelOverride cat chanName = none → cat.catDefault = none →
        getRetention cfg catName chanName = some cfg.globalDefault ∧
        getRetentionSource cfg catName chanName = "global") := by
  refine ⟨?_, ?_, ?_⟩
  · intro n hov hn
    constructor
    · simp [getRetention, hcat, hov, validateRetention, Int.not_lt.mpr hn]
    · simp [getRetentionSource, hcat, hov]
  · intro hov n hd hn
    constructor
    · simp [getRetention, hcat, hov, hd, validateRetention, Int.not_lt.mpr hn]
    · simp [getRetentionSource, hcat, hov, hd]
  · intro hov hd
    constructor
    · simp [getRetention, hcat, hov, hd]
    · simp [getRetentionSource, hcat, hov, hd]

/-- C2 witness: the configuration of the spec's scenarios — global
default `7`, category `Radarr` with default `14` and channels
`grab` (plain) and `archive: -1` (inline override) — resolves
`archive` to `-1` with source `override`, `grab` to `14` with source
`category`. -/
theorem getRetention_precedence_witness :
    (getRetention radarrCfg "Radarr" "archive" = some (-1) ∧
      getRetentionSource radarrCfg "Radarr" "archive" = "override") ∧
    (getRetention radarrCfg "Radarr" "grab" = some 14 ∧
      getRetentionSource radarrCfg "Radarr" "grab" = "category") := by
  constructor
  · exact (getRetention_precedence radarrCfg "Radarr" "archive" radarrCat (by decide)).1
      (-1) (by decide) (by decide)
  · exact (getRetention_precedence radarrCfg "Radarr" "grab" radarrCat (by decide)).2.1
      (by decide) 14 (by decide) (by decide)

/-- C3: whenever the global default satisfies the integer-at-least-`-1`
invariant (which `loadConfig` normalisation always establishes, fourth
conjunct), `validateRetention` replaces every invalid resolved value by
the global default with a warning and no error, returns valid values
unchanged without warning, always yields a value at least `-1`, and
consequently every retention `getRetention` resolves is at least `-1`;
being total functions, validation and resolution never fail a run. -/
theorem validateRetention_never_fails (g : Int) (hg : -1 ≤ g) :
    (∀ v : JsVal, v.isValidRetention = false → validateRetention v g = (g, true)) ∧
    (∀ n : Int, -1 ≤ n → validateRetention (.vint n) g = (n, false)) ∧
    (∀ v : JsVal, -1 ≤ (validateRetention v g).1) ∧
    (∀ raw : Option JsVal, -1 ≤ normalizeGlobalDefault raw) ∧
    (∀ cfg : Config, cfg.globalDefault = g → ∀ catName chanName : String, ∀ r : Int,
        getRetention cfg catName chanName = some r → -1 ≤ r) := by
  have hval : ∀ v : JsVal, -1 ≤ (validateRetention v g).1 := by
    intro v
    cases v with
    | vint n =>
        by_cases h : n < -1
        · simp [validateRetention, h, hg]
        · simp [validateRetention, h, Int.not_lt.mp h]
    | vfrac => simpa [validateRetention] using hg
    | vstr s => simpa [validateRetention] using hg
    | vbool b => simpa [validateRetention] using hg
    | vnull => simpa [validateRetention] using hg
  refine ⟨?_, ?_, hval, ?_, ?_⟩
  · intro v hv
    cases v with
    | vint n =>
        have : n < -1 := by
          by_contra h
          simp [JsVal.isValidRetention, Int.not_lt.mp h] at hv
        simp [validateRetention, this]
    | vfrac => simp [validateRetention]
    | vstr s => simp [validateRetention]
    | vbool b => simp [validateRetention]
    | vnull => simp [validateRetention]
  · intro n hn
    simp [validateRetention, Int.not_lt.mpr hn]
  · intro raw
    match raw with
    | none => simp [normalizeGlobalDefault]
    | some (.vint n) =>
        by_cases h : n < -1
        · simp [normalizeGlobalDefault, h]
        · simp [normalizeGlobalDefault, h, Int.not_lt.mp h]
    | some .vfrac => simp [normalizeGlobalDefault]
    | some (.vstr s) => simp [normalizeGlobalDefault]
    | some (.vbool b) => simp [normalizeGlobalDefault]
    | some .vnull => simp [normalizeGlobalDefault]
  · intro cfg hcfg catName chanName r hr
    rcases hlk : lookupAssoc cfg.categories catName with _ | cat
    · simp [getRetention, hlk] at hr
    · rcases hov : getChannelOverride cat chanName with _ | v
      · rcases hd : cat.catDefault with _ | d
        · simp [getRetention, hlk, hov, hd] at hr
          rw [← hr, hcfg]; exact hg
        · simp [getRetention, hlk, hov, hd] at hr
          rw [← hr, hcfg]; exact hval d
      · simp [getRetention, hlk, hov] at hr
        rw [← hr, hcfg]; exact hval v

/-- C3 witness: at global default `7`, the invalid value `"banana"` is
replaced by `7` with a warning, and a config carrying that override
still resolves to a value at least `-1`. -/
theorem validateRetention_never_fails_witness :
    validateRetention (.vstr "banana") 7 = (7, true) ∧
    -1 ≤ normalizeGlobalDefault (some .vfrac) := by
  have h := validateRetention_never_fails 7 (by decide)
  exact ⟨h.1 (.vstr "banana") rfl, h.2.2.2.1 (some .vfrac)⟩

/-- C10: when the category name is not a key of the configuration's
category map, `getRetention` returns `null` (`none`) rather than a
retention value and `getRetentionSource` returns `"global"`; hence the
never-fail resolution contract holds only when the category exists. -/
theorem getRetention_missing_category (cfg : Config) (catName chanName : String)
    (h : lookupAssoc cfg.categories catName = none) :
    getRetention cfg catName chanName = none ∧
    getRetentionSource cfg catName chanName = "global" := by
  constructor
  · simp [getRetention, h]
  · simp [getRetentionSource, h]

/-- C10 witness: the empty configuration has no category `Ghost`, so
resolution yields `none` and source `"global"`. -/
theorem getRetention_missing_category_witness :
    getRetention { globalDefault := 7, categories := [] } "Ghost" "general" = none ∧
    getRetentionSource { globalDefault := 7, categories := [] } "Ghost" "general" = "global" :=
  getRetention_missing_category _ "Ghost" "general" rfl

/-! Theorems about message classification, caps and reporting. -/

/-- Classification is the pair of filters determined by the branch
conditions of the loop: eligibility (`not pinned-skipped`, older than
the cutoff) plus strictly-younger-than-14-days for the bulk side, and
eligibility plus `deleteOld` plus not-strictly-younger for the
individual side. -/
theorem classifyMessages_eq_filters (sp dOld : Bool) (c b : Int) (msgs : List Msg) :
    classifyMessages sp dOld c b msgs =
      (msgs.filter fun m =>
          !(m.pinned && sp) && decide (m.createdAt < c) && decide (b < m.createdAt),
       msgs.filter fun m =>
          dOld && (!(m.pinned && sp) && decide (m.createdAt < c) && !decide (b < m.createdAt))) := by
  induction msgs with
  | nil => rfl
  | cons x rest ih =>
      obtain ⟨xi, xc, xp⟩ := x
      by_cases hc : xc < c <;> by_cases hb : b < xc <;>
        cases xp <;> cases sp <;> cases dOld <;>
          simp [classifyMessages, ih, List.filter_cons, hc, hb]

/-- C4 counterexample: with the category's `deleteOld` flag disabled, a
message that is eligible for deletion (unpinned, older than the
retention cutoff `100`) but aged past the 14-day bulk limit `50` is
assigned to neither the bulk-eligible nor the individually-eligible
set, so the claimed two-way partition of all eligible messages fails as
stated. -/
theorem classifyMessages_boundary_counterexample :
    ((⟨1, 10, false⟩ : Msg).createdAt < 100 ∧ (⟨1, 10, false⟩ : Msg).pinned = false) ∧
    classifyMessages true false 100 50 [⟨1, 10, false⟩] = ([], []) := by decide

/-- C4 (amended): when the category's `deleteOld` flag is enabled (its
default), every eligible fetched message — older than the retention
cutoff and not excluded as pinned — lands in exactly one of the
bulk-eligible or individually-eligible sets, with membership in the
bulk set exactly when the message is strictly younger than the 14-day
limit; in particular a message exactly at the 14-day boundary
(`createdAt = bulkLimit`) goes to the individually-eligible set, never
both and never neither.  When `deleteOld` is disabled, eligible
messages at or past the boundary are placed in neither set. -/
theorem classifyMessages_partitions_eligible (sp : Bool) (c b : Int) (msgs : List Msg)
    (m : Msg) (hm : m ∈ msgs) (hpin : ¬(m.pinned = true ∧ sp = true))
    (helig : m.createdAt < c) :
    ((m ∈ (classifyMessages sp true c b msgs).1 ∧ m ∉ (classifyMessages sp true c b msgs).2) ∨
     (m ∈ (classifyMessages sp true c b msgs).2 ∧ m ∉ (classifyMessages sp true c b msgs).1)) ∧
    (m ∈ (classifyMessages sp true c b msgs).1 ↔ b < m.createdAt) ∧
    (m.createdAt = b →
      m ∈ (classifyMessages sp true c b msgs).2 ∧ m ∉ (classifyMessages sp true c b msgs).1) := by
  have hps : (!(m.pinned && sp)) = true := by
    by_cases h : m.pinned = true
    · by_cases h2 : sp = true
      · exact absurd ⟨h, h2⟩ hpin
      · simp [Bool.not_eq_true] at h2
        simp [h2]
    · simp [Bool.not_eq_true] at h
      simp [h]
  rw [classifyMessages_eq_filters]
  by_cases hb : b < m.createdAt
  · refine ⟨Or.inl ⟨?_, ?_⟩, ⟨fun _ => hb, fun _ => ?_⟩, fun hbad => absurd hbad (by omega)⟩
    · exact List.mem_filter.mpr ⟨hm, by simp [hps, helig, hb]⟩
    · intro hmem
      have hpred := (List.mem_filter.mp hmem).2
      simp [hb] at hpred
    · exact List.mem_filter.mpr ⟨hm, by simp [hps, helig, hb]⟩
  · refine ⟨Or.inr ⟨?_, ?_⟩, ⟨fun hin => ?_, fun hbb => absurd hbb hb⟩, fun _ => ⟨?_, ?_⟩⟩
    · exact List.mem_filter.mpr ⟨hm, by simp [hps, helig, hb]⟩
    · intro hmem
      have hpred := (List.mem_filter.mp hmem).2
      simp [hb] at hpred
    · have hpred := (List.mem_filter.mp hin).2
      simp [hb] at hpred
    · exact List.mem_filter.mpr ⟨hm, by simp [hps, helig, hb]⟩
    · intro hmem
      have hpred := (List.mem_filter.mp hmem).2
      simp [hb] at hpred

/-- C4 witness: a message exactly at the 14-day boundary
(`createdAt = 50 = bulkLimit`, cutoff `100`) goes to the
individually-eligible set and not the bulk set. -/
theorem classifyMessages_partitions_eligible_witness :
    (⟨1, 50, false⟩ : Msg) ∈ (classifyMessages true true 100 50 [⟨1, 50, false⟩]).2 ∧
    (⟨1, 50, false⟩ : Msg) ∉ (classifyMessages true true 100 50 [⟨1, 50, false⟩]).1 :=
  (classifyMessages_partitions_eligible true 100 50 [⟨1, 50, false⟩] ⟨1, 50, false⟩
    (by decide) (by decide) (by decide)).2.2 rfl

/-- C5: in every live run and every channel, at most
`maxOldDeletesPerChannel` individual deletes are attempted (the
attempted list is `oldDeletable.slice(0, maxOld)`), so the count of
individual deletions performed never exceeds the cap; and when more
individually-eligible messages exist than the cap, the excess
`oldDeletable.length - maxOld` is reported in the "old messages remain"
warning rather than silently dropped. -/
theorem individualDeletes_capped (old : List Msg) (maxOld : Nat) (delOk : Msg → Bool) :
    (oldToDelete old maxOld).length ≤ maxOld ∧
    individualDeleted old maxOld delOk ≤ maxOld ∧
    (maxOld < old.length → oldRemaining old maxOld = some (old.length - maxOld)) := by
  refine ⟨?_, ?_, ?_⟩
  · exact List.length_take_le maxOld old
  · calc ((oldToDelete old maxOld).filter delOk).length
        ≤ (oldToDelete old maxOld).length := List.length_filter_le _ _
      _ ≤ maxOld := List.length_take_le maxOld old
  · intro h
    simp [oldRemaining, h]

/-- C5 witness: 30 individually-eligible messages with a cap of 20 —
at most 20 attempts and a reported remainder of 10. -/
theorem individualDeletes_capped_witness :
    (oldToDelete (List.replicate 30 (⟨1, 10, false⟩ : Msg)) 20).length ≤ 20 ∧
    oldRemaining (List.replicate 30 (⟨1, 10, false⟩ : Msg)) 20 = some 10 := by
  have h := individualDeletes_capped (List.replicate 30 ⟨1, 10, false⟩) 20 (fun _ => true)
  exact ⟨h.1, by simpa using h.2.2 (by simp)⟩

/-- C6: for every channel and message mix, the dry-run reported count
equals the bulk-eligible count plus the individually-eligible count
capped at `maxOldDeletesPerChannel`, and — provided every attempted
individual delete succeeds (and, as the embedding assumes, no message
ages past the 14-day boundary mid-run) — it is exactly the number a
live run over the same mix actually deletes. -/
theorem dryRun_matches_live (sp dOld : Bool) (c b : Int) (maxOld : Nat)
    (ci : ChanInput) (msgs : List Msg) (hfetch : ci.fetchOutcome = .ok msgs)
    (hok : ∀ m ∈ oldToDelete (classifyMessages sp dOld c b msgs).2 maxOld,
      ci.delOk m = true) :
    (processChannel sp dOld c b maxOld true ci).purged
      = (classifyMessages sp dOld c b msgs).1.length
        + min (classifyMessages sp dOld c b msgs).2.length maxOld ∧
    (processChannel sp dOld c b maxOld false ci).purged
      = (processChannel sp dOld c b maxOld true ci).purged := by
  have hfilter : (oldToDelete (classifyMessages sp dOld c b msgs).2 maxOld).filter ci.delOk
      = oldToDelete (classifyMessages sp dOld c b msgs).2 maxOld :=
    List.filter_eq_self.mpr hok
  constructor
  · simp [processChannel, hfetch, dryRunPurged, oldToDelete, List.length_take,
      Nat.min_comm]
  · simp [processChannel, hfetch, dryRunPurged, liveDeleted, individualDeleted, hfilter]

/-- C6 witness: on the 120-message scenario with cap 20, the dry run
reports `90 + 20 = 110` and a live run with all deletes succeeding
deletes the same 110. -/
theorem dryRun_matches_live_witness :
    (processChannel true true 100 50 20 false ⟨"ch", .ok scenarioMsgs, fun _ => true⟩).purged
      = (processChannel true true 100 50 20 true ⟨"ch", .ok scenarioMsgs, fun _ => true⟩).purged ∧
    (processChannel true true 100 50 20 true ⟨"ch", .ok scenarioMsgs, fun _ => true⟩).purged
      = 110 := by
  have h := dryRun_matches_live true true 100 50 20 ⟨"ch", .ok scenarioMsgs, fun _ => true⟩
    scenarioMsgs rfl (fun m _ => rfl)
  exact ⟨h.2, by rw [h.1]; decide⟩

/-- The channel loop with an explicit accumulator, for induction. -/
theorem runChannels_foldl (sp dOld : Bool) (c b : Int) (maxOld : Nat) (dry : Bool)
    (chans : List ChanInput) (acc : List ChannelResult × Nat) :
    chans.foldl
      (fun acc ci =>
        let r := processChannel sp dOld c b maxOld dry ci
        (acc.1 ++ [r], acc.2 + if r.error.isSome then 1 else 0))
      acc
    = (acc.1 ++ chans.map (processChannel sp dOld c b maxOld dry),
       acc.2 + chans.countP
         (fun ci => ((processChannel sp dOld c b maxOld dry ci).error).isSome)) := by
  induction chans generalizing acc with
  | nil => simp
  | cons x rest ih =>
      rcases acc with ⟨rs, n⟩
      simp only [List.foldl_cons, ih, List.map_cons, List.countP_cons, Prod.mk.injEq]
      constructor
      · simp
      · by_cases hx : ((processChannel sp dOld c b maxOld dry x).error).isSome
        · simp [hx]; omega
        · simp [hx]

/-- C7 counterexample: a failing individual delete (its `msg.delete()`
throws, here every delete fails) is caught by the inner `catch`, merely
logged: the channel's result carries no error and the run's error
counter stays `0`, so not every per-channel delete error is recorded
and counted as the claim states. -/
theorem channelFailure_counterexample :
    oldToDelete (classifyMessages true true 100 50 [⟨1, 10, false⟩]).2 50 = [⟨1, 10, false⟩] ∧
    (fun (_ : Msg) => false) (⟨1, 10, false⟩ : Msg) = false ∧
    (runChannels true true 100 50 50 false [⟨"chan", .ok [⟨1, 10, false⟩], fun _ => false⟩]).1
      = [⟨"chan", 0, none⟩] ∧
    (runChannels true true 100 50 50 false [⟨"chan", .ok [⟨1, 10, false⟩], fun _ => false⟩]).2
      = 0 := by
  refine ⟨by decide, rfl, ?_, ?_⟩ <;> decide

/-- C7 (amended): an error thrown inside a channel's `try` block — a
fetch error or a bulk-delete error — is isolated: it is recorded
against that channel in the run result with the error message,
increments the run's error counter, and never aborts the loop (every
channel of the run contributes its result, in order, and the error
counter equals the number of failing channels); failures of capped
individual deletes, by contrast, are caught by the inner handler,
logged and skipped without being recorded in the run result or
counted. -/
theorem channelFailure_isolated (sp dOld : Bool) (c b : Int) (maxOld : Nat) (dry : Bool)
    (chans : List ChanInput) :
    (runChannels sp dOld c b maxOld dry chans).1
        = chans.map (processChannel sp dOld c b maxOld dry) ∧
    (runChannels sp dOld c b maxOld dry chans).2
        = chans.countP
            (fun ci => ((processChannel sp dOld c b maxOld dry ci).error).isSome) ∧
    (∀ ci ∈ chans, ∀ e : String, ci.fetchOutcome = .error e →
        ({ name := ci.name, purged := 0, error := some e } : ChannelResult)
          ∈ (runChannels sp dOld c b maxOld dry chans).1) := by
  have hfold := runChannels_foldl sp dOld c b maxOld dry chans ([], 0)
  refine ⟨?_, ?_, ?_⟩
  · simpa [runChannels] using congrArg Prod.fst hfold
  · simpa [runChannels] using congrArg Prod.snd hfold
  · intro ci hci e he
    have h1 : (runChannels sp dOld c b maxOld dry chans).1
        = chans.map (processChannel sp dOld c b maxOld dry) := by
      simpa [runChannels] using congrArg Prod.fst hfold
    rw [h1]
    refine List.mem_map.mpr ⟨ci, hci, ?_⟩
    simp [processChannel, he]

/-- C7 witness: a run over a fetch-failing channel followed by a healthy
one records the failure against the first channel while the second is
still processed, and counts one error. -/
theorem channelFailure_isolated_witness :
    ({ name := "bad", purged := 0, error := some "fetch failed" } : ChannelResult)
      ∈ (runChannels true true 100 50 50 false
          [⟨"bad", .error "fetch failed", fun _ => true⟩,
           ⟨"good", .ok [], fun _ => true⟩]).1 ∧
    (runChannels true true 100 50 50 false
        [⟨"bad", .error "fetch failed", fun _ => true⟩,
         ⟨"good", .ok [], fun _ => true⟩]).1.length = 2 := by
  have h := channelFailure_isolated true true 100 50 50 false
    [⟨"bad", .error "fetch failed", fun _ => true⟩, ⟨"good", .ok [], fun _ => true⟩]
  refine ⟨h.2.2 ⟨"bad", .error "fetch failed", fun _ => true⟩
      (List.mem_cons_self _ _) "fetch failed" rfl, ?_⟩
  rw [h.1]
  simp

/-- C8 counterexample: when the guild is unreachable the run's outcome
has `persisted = none` — `persistStats` is never called on that path —
whereas a reachable guild does persist; the claim's "persisted to the
stats store" fails. -/
theorem guildUnreachable_counterexample :
    (runCleanupModel false true true 100 50 50 false
        [⟨"c", .ok [], fun _ => true⟩]).persisted = none ∧
    (runCleanupModel true true true 100 50 50 false
        [⟨"c", .ok [], fun _ => true⟩]).persisted ≠ none := by
  constructor <;> decide

/-- C8 (amended): a run whose target guild is unreachable aborts
immediately before processing any channel and is reported — through the
`cleanup-complete` event — as a zero-progress failed run
(`totalProcessed = 0`, `totalPurged = 0`, `totalErrors = 1`), but the
failed run is not persisted to the stats store: `persistStats` is never
invoked on this path. -/
theorem guildUnreachable_abort (sp dOld : Bool) (c b : Int) (maxOld : Nat)
    (dry : Bool) (chans : List ChanInput) :
    runCleanupModel false sp dOld c b maxOld dry chans
      = { emitted := { totalProcessed := 0, totalPurged := 0, totalErrors := 1,
                       dryRun := dry },
          persisted := none } := rfl

/-! Theorems about the single-flight guards. -/

/-- C1 counterexample: start a sync through the API (an operation is now
in flight), then let the scheduler trigger `runCleanup`.  The schedule
request is accepted — `runCleanup` checks only `cleanupRunning`, not the
route module's `syncRunning` — and afterwards a cleanup and a sync are
in flight simultaneously, refuting both the process-wide rejection rule
and the at-most-one-in-flight invariant as claimed. -/
theorem singleFlight_counterexample :
    inFlight (runTrace [.startSync .api]) = true ∧
    (applyReq (runTrace [.startSync .api]) (.startCleanup .schedule)).2 = .started ∧
    (runTrace [.startSync .api, .startCleanup .schedule]).cleanupRunning = true ∧
    (runTrace [.startSync .api, .startCleanup .schedule]).syncRunning = true := by
  decide

/-- C1 (amended): the single-flight guarantee holds for API-triggered
requests: while either a cleanup or an API sync is in flight, API
cleanup and API sync requests are rejected immediately with the
distinct "already running" condition and the state is unchanged (never
queued); and a cleanup request from any trigger is likewise rejected
while a cleanup is in flight.  A schedule- or CLI-triggered cleanup is
however not rejected while only a sync is in flight, and a CLI sync is
never guard-rejected, so the invariant is not process-wide. -/
theorem singleFlight_api (s : ProcState) (h : inFlight s = true) :
    applyReq s (.startCleanup .api) = (s, .alreadyRunning) ∧
    applyReq s (.startSync .api) = (s, .alreadyRunning) ∧
    (∀ t : Trigger, s.cleanupRunning = true →
      applyReq s (.startCleanup t) = (s, .alreadyRunning)) := by
  refine ⟨?_, ?_, ?_⟩
  · simp only [applyReq, inFlight] at h ⊢
    rw [h]
    simp
  · simp only [applyReq, inFlight] at h ⊢
    rw [h]
    simp
  · intro t hc
    cases t <;> simp [applyReq, hc]

/-- C1 witness: with a cleanup in flight, API cleanup and sync requests
and a schedule-triggered cleanup are all rejected with "already
running". -/
theorem singleFlight_api_witness :
    applyReq ⟨true, false⟩ (.startCleanup .api) = (⟨true, false⟩, .alreadyRunning) ∧
    applyReq ⟨true, false⟩ (.startSync .api) = (⟨true, false⟩, .alreadyRunning) ∧
    applyReq ⟨true, false⟩ (.startCleanup .schedule) = (⟨true, false⟩, .alreadyRunning) := by
  have h := singleFlight_api ⟨true, false⟩ (by decide)
  exact ⟨h.1, h.2.1, h.2.2 .schedule rfl⟩

/-! Lemmas about the override map and the rebuilt channel list,
leading to the idempotence of `syncConfigModel`. -/

/-- Looking a key up after a `set`: the set key yields the new value,
every other key is unaffected. -/
theorem ovLookup_ovSet (m : List (String × JsVal)) (k : String) (v : JsVal) (n : String) :
    ovLookup (ovSet m k v) n = if n = k then some v else ovLookup m n := by
  induction m with
  | nil =>
      by_cases h : n = k
      · simp [ovSet, ovLookup, h]
      · simp [ovSet, ovLookup, h, Ne.symm h]
  | cons p rest ih =>
      by_cases hpk : p.1 = k
      · by_cases hnk : n = k
        · simp [ovSet, ovLookup, hpk, hnk]
        · simp [ovSet, ovLookup, hpk, hnk, Ne.symm hnk]
      · by_cases hnk : n = k
        · subst hnk
          simp [ovSet, ovLookup, hpk, ih]
        · simp [ovSet, ovLookup, hpk, hnk, ih]

/-- Every entry of a map after a `set` was already present or carries
the set key. -/
theorem mem_ovSet (m : List (String × JsVal)) (k : String) (v : JsVal)
    (p : String × JsVal) (hp : p ∈ ovSet m k v) : p ∈ m ∨ p.1 = k := by
  induction m with
  | nil =>
      simp [ovSet] at hp
      exact Or.inr (by rw [hp])
  | cons q rest ih =>
      by_cases hq : q.1 = k
      · simp [ovSet, hq] at hp
        rcases hp with h | h
        · exact Or.inr (by rw [h])
        · exact Or.inl (List.mem_cons_of_mem _ h)
      · simp [ovSet, hq] at hp
        rcases hp with h | h
        · exact Or.inl (by simp [h])
        · rcases ih h with h2 | h2
          · exact Or.inl (List.mem_cons_of_mem _ h2)
          · exact Or.inr h2

/-- Looking up a name in the overrides collected from a rebuilt channel
list: a name of the list with an override resolves to that override,
anything else falls through to the accumulator. -/
theorem ovLookup_collect_build (ov : List (String × JsVal)) (names : List String) :
    ∀ (acc : List (String × JsVal)) (n : String),
      ovLookup (collectOverridesFrom acc (buildChannelList ov names)) n
        = if n ∈ names ∧ (ovLookup ov n).isSome = true then ovLookup ov n
          else ovLookup acc n := by
  induction names with
  | nil =>
      intro acc n
      simp [buildChannelList, collectOverridesFrom]
  | cons x rest ih =>
      intro acc n
      rcases hov : ovLookup ov x with _ | w
      · have hbuild : buildChannelList ov (x :: rest)
            = .plain x :: buildChannelList ov rest := by
          simp [buildChannelList, hov]
        rw [hbuild]
        simp only [collectOverridesFrom]
        rw [ih acc n]
        by_cases hnx : n = x
        · subst hnx
          simp [hov]
        · simp [hnx, List.mem_cons]
      · have hbuild : buildChannelList ov (x :: rest)
            = .chanOverride x w :: buildChannelList ov rest := by
          simp [buildChannelList, hov]
        rw [hbuild]
        simp only [collectOverridesFrom]
        rw [ih (ovSet acc x w) n, ovLookup_ovSet]
        by_cases hnx : n = x
        · subst hnx
          by_cases hnr : n ∈ rest
          · simp [hnr, hov]
          · simp [hnr, hov]
        · simp [hnx, List.mem_cons]

/-- Every key of the overrides collected from a rebuilt channel list
comes from the accumulator or is one of the list's names. -/
theorem mem_collect_build (ov : List (String × JsVal)) (names : List String) :
    ∀ (acc : List (String × JsVal)) (p : String × JsVal),
      p ∈ collectOverridesFrom acc (buildChannelList ov names) →
        p ∈ acc ∨ p.1 ∈ names := by
  induction names with
  | nil =>
      intro acc p hp
      simp [buildChannelList, collectOverridesFrom] at hp
      exact Or.inl hp
  | cons x rest ih =>
      intro acc p hp
      rcases hov : ovLookup ov x with _ | w
      · have hbuild : buildChannelList ov (x :: rest)
            = .plain x :: buildChannelList ov rest := by
          simp [buildChannelList, hov]
        rw [hbuild] at hp
        simp only [collectOverridesFrom] at hp
        rcases ih acc p hp with h | h
        · exact Or.inl h
        · exact Or.inr (List.mem_cons_of_mem _ h)
      · have hbuild : buildChannelList ov (x :: rest)
            = .chanOverride x w :: buildChannelList ov rest := by
          simp [buildChannelList, hov]
        rw [hbuild] at hp
        simp only [collectOverridesFrom] at hp
        rcases ih (ovSet acc x w) p hp with h | h
        · rcases mem_ovSet acc x w p h with h2 | h2
          · exact Or.inl h2
          · exact Or.inr (by simp [h2])
        · exact Or.inr (List.mem_cons_of_mem _ h)

/-- Rebuilding a channel list from the overrides collected out of it
reproduces the list: the fixed point `syncConfig` reaches after one
pass. -/
theorem build_collect_build (ov : List (String × JsVal)) (sorted : List String) :
    buildChannelList (collectInlineOverrides (buildChannelList ov sorted)) sorted
      = buildChannelList ov sorted := by
  have key : ∀ name ∈ sorted,
      ovLookup (collectInlineOverrides (buildChannelList ov sorted)) name
        = ovLookup ov name := by
    intro name hname
    rw [collectInlineOverrides, ovLookup_collect_build ov sorted [] name]
    by_cases hs : (ovLookup ov name).isSome = true
    · simp [hname, hs]
    · have hnone : ovLookup ov name = none := by
        cases hx : ovLookup ov name
        · rfl
        · rw [hx] at hs
          simp at hs
      simp [hname, hs, hnone, ovLookup]
  show sorted.map _ = sorted.map _
  apply List.map_congr_left
  intro name hname
  dsimp only
  rw [key name hname]

/-- No override collected from a rebuilt channel list points outside
the list's names, so the removal-warning count is zero. -/
theorem removedCount_collect_build (ov : List (String × JsVal)) (sorted : List String) :
    removedOverridesCount (collectInlineOverrides (buildChannelList ov sorted)) sorted
      = 0 := by
  rw [removedOverridesCount, List.length_eq_zero, List.filter_eq_nil_iff]
  intro p hp
  rcases mem_collect_build ov sorted [] p hp with h | h
  · simp at h
  · simp [h]

/-- The plain channel list of a freshly added category is the rebuild
over the empty override map. -/
theorem map_plain_eq_build (sorted : List String) :
    sorted.map ChannelEntry.plain = buildChannelList [] sorted := by
  show sorted.map _ = sorted.map _
  apply List.map_congr_left
  intro name _
  rfl

/-- Lookup distributes over append: the left list wins. -/
theorem lookupAssoc_append {β : Type} (l1 l2 : List (String × β)) (k : String) :
    lookupAssoc (l1 ++ l2) k
      = match lookupAssoc l1 k with
        | some v => some v
        | none => lookupAssoc l2 k := by
  induction l1 with
  | nil => simp [lookupAssoc]
  | cons p rest ih =>
      by_cases hp : p.1 = k
      · simp [lookupAssoc, hp]
      · simp [lookupAssoc, hp, ih]

/-- A lookup misses exactly when the key is absent from the key
list. -/
theorem lookupAssoc_eq_none {β : Type} (l : List (String × β)) (k : String) :
    lookupAssoc l k = none ↔ k ∉ l.map Prod.fst := by
  induction l with
  | nil => simp [lookupAssoc]
  | cons p rest ih =>
      by_cases hp : p.1 = k
      · simp [lookupAssoc, hp]
      · simp [lookupAssoc, hp, ih, Ne.symm hp]

/-- Updating an existing key makes its lookup return the new value. -/
theorem lookupAssoc_updateCat_self (cats : List (String × Category)) (name : String)
    (c c0 : Category) (h : lookupAssoc cats name = some c0) :
    lookupAssoc (updateCat cats name c) name = some c := by
  induction cats with
  | nil => simp [lookupAssoc] at h
  | cons p rest ih =>
      by_cases hp : p.1 = name
      · simp [updateCat, lookupAssoc, hp]
      · simp only [lookupAssoc, hp, if_false] at h
        simp only [updateCat, List.map_cons, if_neg hp, lookupAssoc, hp, if_false]
        exact ih h

/-- Updating one key leaves every other lookup unchanged. -/
theorem lookupAssoc_updateCat_other (cats : List (String × Category)) (name : String)
    (c : Category) (n : String) (hn : n ≠ name) :
    lookupAssoc (updateCat cats name c) n = lookupAssoc cats n := by
  induction cats with
  | nil => rfl
  | cons p rest ih =>
      have hstep : updateCat (p :: rest) name c
          = (if p.1 = name then (name, c) else p) :: updateCat rest name c := rfl
      rw [hstep]
      by_cases hp : p.1 = name
      · rw [if_pos hp]
        have h1 : ¬(name = n) := fun hh => hn hh.symm
        have h2 : ¬(p.1 = n) := by rw [hp]; exact h1
        simp [lookupAssoc, h1, h2, ih]
      · rw [if_neg hp]
        simp [lookupAssoc, ih]

/-- In-place update preserves the key list. -/
theorem keys_updateCat (cats : List (String × Category)) (name : String) (c : Category) :
    (updateCat cats name c).map Prod.fst = cats.map Prod.fst := by
  induction cats with
  | nil => rfl
  | cons p rest ih =>
      have hstep : updateCat (p :: rest) name c
          = (if p.1 = name then (name, c) else p) :: updateCat rest name c := rfl
      rw [hstep, List.map_cons, List.map_cons, ih]
      by_cases hp : p.1 = name
      · rw [if_pos hp]
        simp [hp]
      · rw [if_neg hp]

/-- Updating a key that is absent is a no-op. -/
theorem updateCat_not_mem (cats : List (String × Category)) (name : String)
    (c : Category) (h : name ∉ cats.map Prod.fst) : updateCat cats name c = cats := by
  induction cats with
  | nil => rfl
  | cons p rest ih =>
      rw [List.map_cons, List.mem_cons, not_or] at h
      obtain ⟨h1, h2⟩ := h
      have hp : ¬(p.1 = name) := fun hh => h1 hh.symm
      simp [updateCat, hp]
      exact ih h2

/-- Writing back the value a key already holds is a no-op when keys are
unique. -/
theorem updateCat_self_eq (cats : List (String × Category)) (name : String)
    (c : Category) (hnodup : (cats.map Prod.fst).Nodup)
    (h : lookupAssoc cats name = some c) : updateCat cats name c = cats := by
  induction cats with
  | nil => rfl
  | cons p rest ih =>
      rw [List.map_cons, List.nodup_cons] at hnodup
      obtain ⟨hnd1, hnd2⟩ := hnodup
      by_cases hp : p.1 = name
      · simp only [lookupAssoc, hp, if_true, Option.some.injEq] at h
        have hhead : ((name, c) : String × Category) = p := by
          rw [← hp, ← h]
        have hnm : name ∉ rest.map Prod.fst := by
          rw [← hp]
          exact hnd1
        show (if p.1 = name then (name, c) else p) :: updateCat rest name c = p :: rest
        rw [if_pos hp, hhead, updateCat_not_mem rest name c hnm]
      · simp only [lookupAssoc, hp, if_false] at h
        show (if p.1 = name then (name, c) else p) :: updateCat rest name c = p :: rest
        rw [if_neg hp, ih hnd2 h]

/-- A category whose channel list is some rebuild and whose deprecated
section is gone is in sync. -/
theorem synced_of_build (chans : List String) (cat : Category)
    (hm : cat.overridesMap = none) (ov : List (String × JsVal))
    (hch : cat.channels.getD [] = buildChannelList ov (sortChannels chans)) :
    SyncedCat chans cat := by
  refine ⟨hm, ?_, ?_⟩
  · rw [hch, build_collect_build]
  · rw [hch]
    exact removedCount_collect_build ov _

/-- `syncExistingCat` deletes the deprecated `overrides:` section. -/
theorem syncExistingCat_overridesMap (cat : Category) (sorted : List String) (ch : Nat) :
    (syncExistingCat cat sorted ch).1.overridesMap = none := by
  rcases hm : cat.overridesMap with _ | m
  · simp only [syncExistingCat, hm]
    split
    · exact hm
    · rfl
  · simp only [syncExistingCat, hm]
    split
    · rfl
    · rfl

/-- The channel list `syncExistingCat` leaves behind is a rebuild over
some override map. -/
theorem syncExistingCat_channels (cat : Category) (sorted : List String) (ch : Nat) :
    ∃ ov, (syncExistingCat cat sorted ch).1.channels.getD []
      = buildChannelList ov sorted := by
  rcases hm : cat.overridesMap with _ | m
  · simp only [syncExistingCat, hm]
    split
    · next hif => exact ⟨_, hif⟩
    · exact ⟨_, rfl⟩
  · simp only [syncExistingCat, hm]
    split
    · next hif => exact ⟨_, hif⟩
    · exact ⟨_, rfl⟩

/-- An already-synced category passes through `syncExistingCat`
unchanged, with no change counted. -/
theorem syncExistingCat_id (cat : Category) (chans : List String) (ch : Nat)
    (hs : SyncedCat chans cat) :
    syncExistingCat cat (sortChannels chans) ch = (cat, ch) := by
  obtain ⟨hm, hch, hrem⟩ := hs
  simp [syncExistingCat, hm, ← hch, hrem]

/-- After `syncCategory`, the processed category is present and in
sync. -/
theorem syncCategory_self_synced (g : Int) (cats : List (String × Category)) (ch : Nat)
    (catName : String) (chans : List String) :
    ∃ cat', lookupAssoc (syncCategory g cats ch catName chans).1 catName = some cat' ∧
      SyncedCat chans cat' := by
  rcases hlk : lookupAssoc cats catName with _ | cat
  · have hlook : lookupAssoc (syncCategory g cats ch catName chans).1 catName
        = some { enabled := false, catDefault := some (.vint g),
                 channels := some ((sortChannels chans).map ChannelEntry.plain),
                 overridesMap := none } := by
      simp only [syncCategory, hlk]
      rw [lookupAssoc_append, hlk]
      simp [lookupAssoc]
    refine ⟨_, hlook, ?_⟩
    exact synced_of_build chans _ rfl [] (by simp [map_plain_eq_build])
  · obtain ⟨ov, hov⟩ := syncExistingCat_channels cat (sortChannels chans) ch
    refine ⟨(syncExistingCat cat (sortChannels chans) ch).1, ?_, ?_⟩
    · simp only [syncCategory, hlk]
      exact lookupAssoc_updateCat_self cats catName _ cat hlk
    · exact synced_of_build chans _ (syncExistingCat_overridesMap cat _ ch) ov hov

/-- `syncCategory` leaves the entry of every other category name
unchanged. -/
theorem syncCategory_lookup_other (g : Int) (cats : List (String × Category)) (ch : Nat)
    (catName : String) (chans : List String) (n : String) (hn : n ≠ catName) :
    lookupAssoc (syncCategory g cats ch catName chans).1 n = lookupAssoc cats n := by
  rcases hlk : lookupAssoc cats catName with _ | cat
  · simp only [syncCategory, hlk]
    rw [lookupAssoc_append]
    rcases hn2 : lookupAssoc cats n with _ | v
    · simp [hn2, lookupAssoc, Ne.symm hn]
    · simp [hn2]
  · simp only [syncCategory, hlk]
    exact lookupAssoc_updateCat_other cats catName _ n hn

/-- The key list after `syncCategory`: unchanged, or extended by the
new category's name when it was absent. -/
theorem syncCategory_keys (g : Int) (cats : List (String × Category)) (ch : Nat)
    (catName : String) (chans : List String) :
    (syncCategory g cats ch catName chans).1.map Prod.fst = cats.map Prod.fst ∨
    ((syncCategory g cats ch catName chans).1.map Prod.fst
        = cats.map Prod.fst ++ [catName] ∧ lookupAssoc cats catName = none) := by
  rcases hlk : lookupAssoc cats catName with _ | cat
  · right
    refine ⟨?_, rfl⟩
    simp only [syncCategory, hlk]
    simp
  · left
    simp only [syncCategory, hlk]
    exact keys_updateCat cats catName _

/-- `syncCategory` preserves uniqueness of category keys. -/
theorem syncCategory_nodup (g : Int) (cats : List (String × Category)) (ch : Nat)
    (catName : String) (chans : List String)
    (h : (cats.map Prod.fst).Nodup) :
    ((syncCategory g cats ch catName chans).1.map Prod.fst).Nodup := by
  rcases syncCategory_keys g cats ch catName chans with hk | ⟨hk, hnone⟩
  · rw [hk]
    exact h
  · rw [hk, List.nodup_append]
    refine ⟨h, List.nodup_singleton _, ?_⟩
    intro a ha hb
    rw [List.mem_singleton] at hb
    subst hb
    exact (lookupAssoc_eq_none cats a).mp hnone ha

/-- An already-synced category passes through `syncCategory`
unchanged. -/
theorem syncCategory_id (g : Int) (cats : List (String × Category)) (ch : Nat)
    (catName : String) (chans : List String) (cat : Category)
    (hnodup : (cats.map Prod.fst).Nodup)
    (hlk : lookupAssoc cats catName = some cat) (hs : SyncedCat chans cat) :
    syncCategory g cats ch catName chans = (cats, ch) := by
  simp only [syncCategory, hlk, syncExistingCat_id cat chans ch hs]
  rw [updateCat_self_eq cats catName cat hnodup hlk]

/-- The sync loop leaves categories outside the platform list
untouched. -/
theorem syncCategories_lookup_other (g : Int) (ps : List (String × List String))
    (acc : List (String × Category) × Nat) (n : String)
    (hn : n ∉ ps.map Prod.fst) :
    lookupAssoc (syncCategories g ps acc).1 n = lookupAssoc acc.1 n := by
  induction ps generalizing acc with
  | nil => rfl
  | cons x rest ih =>
      rw [List.map_cons, List.mem_cons, not_or] at hn
      obtain ⟨hn1, hn2⟩ := hn
      show lookupAssoc (syncCategories g rest (syncCategory g acc.1 acc.2 x.1 x.2)).1 n = _
      rw [ih _ hn2]
      exact syncCategory_lookup_other g acc.1 acc.2 x.1 x.2 n hn1

/-- The sync loop preserves uniqueness of category keys. -/
theorem syncCategories_nodup (g : Int) (ps : List (String × List String))
    (acc : List (String × Category) × Nat)
    (h : (acc.1.map Prod.fst).Nodup) :
    ((syncCategories g ps acc).1.map Prod.fst).Nodup := by
  induction ps generalizing acc with
  | nil => exact h
  | cons x rest ih =>
      exact ih _ (syncCategory_nodup g acc.1 acc.2 x.1 x.2 h)

/-- After the sync loop, every platform category is present and in
sync. -/
theorem syncCategories_synced (g : Int) (ps : List (String × List String))
    (acc : List (String × Category) × Nat)
    (hps : (ps.map Prod.fst).Nodup) :
    ∀ q ∈ ps, ∃ cat', lookupAssoc (syncCategories g ps acc).1 q.1 = some cat' ∧
      SyncedCat q.2 cat' := by
  induction ps generalizing acc with
  | nil => intro q hq; exact absurd hq (by simp)
  | cons x rest ih =>
      rw [List.map_cons, List.nodup_cons] at hps
      obtain ⟨hx, hrest⟩ := hps
      intro q hq
      rcases List.mem_cons.mp hq with hqx | hqr
      · subst hqx
        obtain ⟨cat', hlook, hsync⟩ :=
          syncCategory_self_synced g acc.1 acc.2 q.1 q.2
        refine ⟨cat', ?_, hsync⟩
        show lookupAssoc (syncCategories g rest (syncCategory g acc.1 acc.2 q.1 q.2)).1 q.1
          = some cat'
        rw [syncCategories_lookup_other g rest _ q.1 hx]
        exact hlook
      · exact ih _ hrest q hqr

/-- Filtering an association list by a key predicate that holds for a
key k does not change k's lookup. -/
theorem lookupAssoc_filter {β : Type} (l : List (String × β))
    (q : (String × β) → Bool) (k : String) (hq : ∀ c, q (k, c) = true) :
    lookupAssoc (l.filter q) k = lookupAssoc l k := by
  induction l with
  | nil => rfl
  | cons e rest ih =>
      by_cases he : e.1 = k
      · have heq : q e = true := by
          have : e = (k, e.2) := by rw [← he]
          rw [this]
          exact hq e.2
        rw [List.filter_cons_of_pos heq]
        simp [lookupAssoc, he]
      · rcases hqe : q e with _ | _
        · rw [List.filter_cons_of_neg (by simp [hqe])]
          rw [ih]
          simp [lookupAssoc, he]
        · rw [List.filter_cons_of_pos hqe]
          simp [lookupAssoc, he, ih]

/-- A configuration in which every platform category is synced and
every configured category is on the platform passes through
`syncConfigModel` with zero changes and no write. -/
theorem syncConfigModel_stable (platform : List (String × List String)) (cfg2 : Config)
    (hnodup : (cfg2.categories.map Prod.fst).Nodup)
    (hsync : ∀ q ∈ platform, ∃ cat,
      lookupAssoc cfg2.categories q.1 = some cat ∧ SyncedCat q.2 cat)
    (hkeys : ∀ e ∈ cfg2.categories, e.1 ∈ platform.map Prod.fst) :
    syncConfigModel platform cfg2 = { config := cfg2, changes := 0, wrote := false } := by
  have hloop : ∀ ps, (∀ q ∈ ps, ∃ cat,
      lookupAssoc cfg2.categories q.1 = some cat ∧ SyncedCat q.2 cat) →
      syncCategories cfg2.globalDefault ps (cfg2.categories, 0) = (cfg2.categories, 0) := by
    intro ps
    induction ps with
    | nil => intro _; rfl
    | cons x rest ih =>
        intro hsy
        obtain ⟨cat, hlk, hs⟩ := hsy x (List.mem_cons_self _ _)
        show syncCategories cfg2.globalDefault rest
          (syncCategory cfg2.globalDefault cfg2.categories 0 x.1 x.2) = _
        rw [syncCategory_id cfg2.globalDefault cfg2.categories 0 x.1 x.2 cat hnodup hlk hs]
        exact ih (fun q hq => hsy q (List.mem_cons_of_mem _ hq))
  have hfilter1 : cfg2.categories.filter
      (fun p => decide (p.1 ∈ platform.map Prod.fst)) = cfg2.categories := by
    rw [List.filter_eq_self]
    intro e he
    simp [hkeys e he]
  have hfilter2 : cfg2.categories.filter
      (fun p => !decide (p.1 ∈ platform.map Prod.fst)) = [] := by
    rw [List.filter_eq_nil_iff]
    intro e he
    simp [hkeys e he]
  simp only [syncConfigModel, hloop platform hsync, hfilter1, hfilter2]
  rfl

/-- C9: a full sync is idempotent with respect to durable writes — the
configuration file is written exactly when the sync made at least one
change (last conjunct, by construction of the model), and running the
sync twice against an unchanged platform category/channel set records
zero changes, performs no write, and leaves the configuration identical
the second time. -/
theorem syncConfig_idempotent (platform : List (String × List String)) (cfg : Config)
    (hplat : (platform.map Prod.fst).Nodup)
    (hcfg : (cfg.categories.map Prod.fst).Nodup) :
    (syncConfigModel platform (syncConfigModel platform cfg).config).changes = 0 ∧
    (syncConfigModel platform (syncConfigModel platform cfg).config).wrote = false ∧
    (syncConfigModel platform (syncConfigModel platform cfg).config).config
      = (syncConfigModel platform cfg).config ∧
    (syncConfigModel platform cfg).wrote
      = decide (0 < (syncConfigModel platform cfg).changes) := by
  have hgd : (syncConfigModel platform cfg).config.globalDefault = cfg.globalDefault := rfl
  have hcats : (syncConfigModel platform cfg).config.categories
      = (syncCategories cfg.globalDefault platform (cfg.categories, 0)).1.filter
          (fun p => decide (p.1 ∈ platform.map Prod.fst)) := rfl
  have hnodup1 : ((syncConfigModel platform cfg).config.categories.map Prod.fst).Nodup := by
    rw [hcats]
    exact List.Nodup.sublist
      ((List.filter_sublist _).map Prod.fst)
      (syncCategories_nodup cfg.globalDefault platform (cfg.categories, 0) hcfg)
  have hsync1 : ∀ q ∈ platform, ∃ cat,
      lookupAssoc (syncConfigModel platform cfg).config.categories q.1 = some cat ∧
        SyncedCat q.2 cat := by
    intro q hq
    obtain ⟨cat, hlk, hs⟩ :=
      syncCategories_synced cfg.globalDefault platform (cfg.categories, 0) hplat q hq
    refine ⟨cat, ?_, hs⟩
    rw [hcats, lookupAssoc_filter]
    · exact hlk
    · intro c
      simp [List.mem_map]
      exact ⟨q.2, hq⟩
  have hkeys1 : ∀ e ∈ (syncConfigModel platform cfg).config.categories,
      e.1 ∈ platform.map Prod.fst := by
    intro e he
    rw [hcats] at he
    have := List.of_mem_filter he
    simpa using this
  have hstable := syncConfigModel_stable platform (syncConfigModel platform cfg).config
    hnodup1 hsync1 hkeys1
  refine ⟨?_, ?_, ?_, rfl⟩
  · rw [hstable]
  · rw [hstable]
  · rw [hstable]

/-- C9 witness: syncing an empty configuration against a one-category
platform writes once, and the second sync over the resulting
configuration records zero changes and performs no write. -/
theorem syncConfig_idempotent_witness :
    (syncConfigModel [("Media", ["general", "logs"])]
        (syncConfigModel [("Media", ["general", "logs"])]
          { globalDefault := 7, categories := [] }).config).changes = 0 ∧
    (syncConfigModel [("Media", ["general", "logs"])]
        (syncConfigModel [("Media", ["general", "logs"])]
          { globalDefault := 7, categories := [] }).config).wrote = false := by
  have h := syncConfig_idempotent [("Media", ["general", "logs"])]
    { globalDefault := 7, categories := [] } (by decide) (by decide)
  exact ⟨h.1, h.2.1⟩

end PurgeBot
